import Mathlib

/- Verification development for the pgslam core (src/src/pgslam.cc):
2D rigid pose algebra, laser-scan ICP matching and the SLAM front-end,
shallowly embedded over the real numbers.  C++ doubles are modelled as ℝ,
std::vector as List, and the `double *ratio` out-parameter as an
`Option ℝ` cell value (`none` models a null pointer). -/

namespace Pgslam

/-- Planar point, modelling Eigen::Vector2d. -/
abbrev Vec2 : Type := ℝ × ℝ

/-- Componentwise vector sum. -/
def vadd (a b : Vec2) : Vec2 := (a.1 + b.1, a.2 + b.2)

/-- Componentwise vector difference. -/
def vsub (a b : Vec2) : Vec2 := (a.1 - b.1, a.2 - b.2)

/-- Scalar multiple of a vector. -/
def vsmul (c : ℝ) (a : Vec2) : Vec2 := (c * a.1, c * a.2)

/-- Eigen's .norm(): Euclidean length. -/
noncomputable def vnorm (a : Vec2) : ℝ := Real.sqrt (a.1 ^ 2 + a.2 ^ 2)

/-- Eigen's Rotation2D<double>(θ) applied to a vector. -/
noncomputable def rot2 (θ : ℝ) (v : Vec2) : Vec2 :=
  (Real.cos θ * v.1 - Real.sin θ * v.2, Real.sin θ * v.1 + Real.cos θ * v.2)

/-- First normalisation loop of the Pose2D constructor and set_theta
(pgslam.cc lines 31 and 41): while (theta < -M_PI) theta += 2*M_PI. -/
noncomputable def normLow (θ : ℝ) : ℝ :=
  if _h : θ < -Real.pi then normLow (θ + 2 * Real.pi) else θ
termination_by (⌈(-Real.pi - θ) / (2 * Real.pi)⌉).toNat
decreasing_by
  have hπ : (0 : ℝ) < 2 * Real.pi := by positivity
  have h1 : (-Real.pi - (θ + 2 * Real.pi)) / (2 * Real.pi)
      = (-Real.pi - θ) / (2 * Real.pi) - 1 := by field_simp; ring
  have hpos : 0 < ⌈(-Real.pi - θ) / (2 * Real.pi)⌉ :=
    Int.ceil_pos.mpr (div_pos (by linarith) hπ)
  rw [h1, Int.ceil_sub_one]
  omega

/-- Second normalisation loop of the Pose2D constructor and set_theta
(pgslam.cc lines 32 and 42): while (theta > M_PI) theta -= 2*M_PI. -/
noncomputable def normHigh (θ : ℝ) : ℝ :=
  if _h : θ > Real.pi then normHigh (θ - 2 * Real.pi) else θ
termination_by (⌈(θ - Real.pi) / (2 * Real.pi)⌉).toNat
decreasing_by
  have hπ : (0 : ℝ) < 2 * Real.pi := by positivity
  have h1 : (θ - 2 * Real.pi - Real.pi) / (2 * Real.pi)
      = (θ - Real.pi) / (2 * Real.pi) - 1 := by field_simp; ring
  have hpos : 0 < ⌈(θ - Real.pi) / (2 * Real.pi)⌉ :=
    Int.ceil_pos.mpr (div_pos (by linarith) hπ)
  rw [h1, Int.ceil_sub_one]
  omega

/-- The two loops in sequence: the angle stored by the Pose2D constructor. -/
noncomputable def normalizeAngle (θ : ℝ) : ℝ := normHigh (normLow θ)

/-- Pose2D data: the fields x_, y_, theta_. -/
structure Pose2D where
  x : ℝ
  y : ℝ
  theta : ℝ

/-- Pose2D(x, y, theta): stores x and y and the normalisation of theta. -/
noncomputable def Pose2D.make (x y θ : ℝ) : Pose2D := ⟨x, y, normalizeAngle θ⟩

/-- Pose2D(): the default constructor, the identity pose. -/
def Pose2D.ident : Pose2D := ⟨0, 0, 0⟩

/-- Pose2D::set_theta: stores the normalisation of theta. -/
noncomputable def Pose2D.set_theta (p : Pose2D) (θ : ℝ) : Pose2D :=
  ⟨p.x, p.y, normalizeAngle θ⟩

/-- Pose2D::operator+: rotate the argument's translation by this pose's
angle, add translations, add angles (renormalised by the constructor). -/
noncomputable def Pose2D.add (a b : Pose2D) : Pose2D :=
  Pose2D.make (a.x + (rot2 a.theta (b.x, b.y)).1)
    (a.y + (rot2 a.theta (b.x, b.y)).2) (a.theta + b.theta)

/-- Pose2D::inverse: rotate the negated translation by -theta,
with angle -theta (renormalised by the constructor). -/
noncomputable def Pose2D.inverse (a : Pose2D) : Pose2D :=
  Pose2D.make (rot2 (-a.theta) (-a.x, -a.y)).1
    (rot2 (-a.theta) (-a.x, -a.y)).2 (-a.theta)

/-- Pose2D::operator-: a - b = b.inverse() + a. -/
noncomputable def Pose2D.sub (a b : Pose2D) : Pose2D := b.inverse.add a

/-- Pose2D::pos: the translation part. -/
def Pose2D.pos (a : Pose2D) : Vec2 := (a.x, a.y)

/-- Echo data: one range return. -/
structure Echo where
  range : ℝ
  angle : ℝ
  intensity : ℝ
  timeStamp : ℤ

/-- Echo::get_point: Cartesian projection of the echo. -/
noncomputable def Echo.get_point (e : Echo) : Vec2 :=
  (e.range * Real.cos e.angle, e.range * Real.sin e.angle)

/-- LaserScan data: sensor-frame points, world pose, lazy world cache
(points, bounding box, dirty flag) and the two per-scan thresholds. -/
structure LaserScan where
  pointsSelf : List Vec2
  pose : Pose2D
  worldTransformedFlag : Bool
  pointsWorld : List Vec2
  maxX : ℝ
  minX : ℝ
  maxY : ℝ
  minY : ℝ
  matchThreshold : ℝ
  distThreshold : ℝ

/-- LaserScan(echos): project every echo; the pose is left default
constructed, the world cache is invalid, thresholds 0.1 and 1.0.
The bounding-box members are uninitialised in C++ until UpdateToWorld
runs; they are modelled as 0 here. -/
noncomputable def LaserScan.fromEchos (echos : List Echo) : LaserScan :=
  ⟨echos.map Echo.get_point, Pose2D.ident, false, [], 0, 0, 0, 0, 0.1, 1⟩

/-- LaserScan(echos, pose): as fromEchos but with the pose supplied. -/
noncomputable def LaserScan.fromEchosPose (echos : List Echo) (pose : Pose2D) :
    LaserScan :=
  ⟨echos.map Echo.get_point, pose, false, [], 0, 0, 0, 0, 0.1, 1⟩

/-- LaserScan::set_pose: assigns the pose and invalidates the world cache. -/
def LaserScan.set_pose (s : LaserScan) (p : Pose2D) : LaserScan :=
  { s with pose := p, worldTransformedFlag := false }

/-- LaserScan::get_pose. -/
def LaserScan.get_pose (s : LaserScan) : Pose2D := s.pose

/-- LaserScan::UpdateToWorld: if the cache is stale, rebuild the world
points by rotating each sensor point by theta and translating, and refresh
the bounding box (its running min/max start from 0; the C++ loop computes
points and all four bounds in one pass, folded separately here). -/
noncomputable def LaserScan.UpdateToWorld (s : LaserScan) : LaserScan :=
  if s.worldTransformedFlag then s
  else
    { s with
      pointsWorld := s.pointsSelf.map (fun p => vadd (rot2 s.pose.theta p) s.pose.pos),
      maxX := (s.pointsSelf.map (fun p => vadd (rot2 s.pose.theta p) s.pose.pos)).foldl
        (fun m p => if p.1 > m then p.1 else m) 0,
      minX := (s.pointsSelf.map (fun p => vadd (rot2 s.pose.theta p) s.pose.pos)).foldl
        (fun m p => if p.1 < m then p.1 else m) 0,
      maxY := (s.pointsSelf.map (fun p => vadd (rot2 s.pose.theta p) s.pose.pos)).foldl
        (fun m p => if p.2 > m then p.2 else m) 0,
      minY := (s.pointsSelf.map (fun p => vadd (rot2 s.pose.theta p) s.pose.pos)).foldl
        (fun m p => if p.2 < m then p.2 else m) 0,
      worldTransformedFlag := true }

/-- LaserScan::transform (static): rotate every point by pose.theta and
translate by (pose.x, pose.y). -/
noncomputable def LaserScan.transform (v : List Vec2) (pose : Pose2D) : List Vec2 :=
  v.map (fun p => vadd (rot2 pose.theta p) (pose.x, pose.y))

/-- Write through a vector index: v[n] = a (no-op out of range, which the
C++ never does on the paths modelled here). -/
def setl {α : Type} : List α → Nat → α → List α
  | [], _, _ => []
  | _ :: l, 0, v => v :: l
  | a :: l, n + 1, v => a :: setl l n v

/-- ICP reference densification (pgslam.cc lines 189-197): the reference
is resized to 7n slots (the trailing 7 slots stay value-initialised, cf.
spec §4.2 step 3) and slot 7i+j receives the j-th linear interpolation
between consecutive original points. -/
noncomputable def densify (cache : List Vec2) : List Vec2 :=
  (List.range (cache.length - 1)).foldl
    (fun acc i =>
      (List.range 7).foldl
        (fun acc2 j =>
          setl acc2 (7 * i + j)
            (vadd (vsmul (j : ℝ)
              (vsmul (1 / 7) (vsub (cache.getD (i + 1) (0, 0)) (cache.getD i (0, 0)))))
              (cache.getD i (0, 0))))
        acc)
    (List.replicate (cache.length * 7) ((0 : ℝ), (0 : ℝ)))

/-- Modelled from the spec: the KDTree2D implementation
(pgslam/kdtree2d.h, not present under src/).  Spec §4.3: the only
guarantee ICP relies on is that NearestIndex returns an index of a point
at minimum Euclidean distance to the query among the input, and "none"
(C++ index == -1) when the input is empty.  This model returns the first
index attaining the minimum distance. -/
noncomputable def nearestIndexSpec (pts : List Vec2) (q : Vec2) : Option Nat :=
  (pts.enum.foldl
    (fun best cur =>
      match best with
      | none => some cur
      | some b => if vnorm (vsub cur.2 q) < vnorm (vsub b.2 q) then some cur else some b)
    none).map Prod.fst

/-- Write through the ratio pointer: no-op when the pointer is null. -/
def wr (r : Option ℝ) (v : ℝ) : Option ℝ := r.map (fun _ => v)

/-- ICP correspondence search (pgslam.cc lines 213-237): for each moving
point in order, query the tree; abort with "none" at the first no-match
(the C++ early return); otherwise record the matched index (trace_back),
the near point (the closest reference point if within dist_threshold,
else the scan point itself, matching near = scan initialisation), the
mask bit, and count matches under match_threshold. -/
noncomputable def searchLoop (nearest : Vec2 → Option Nat) (dense : List Vec2)
    (mt dt : ℝ) : List Vec2 → Option (List Nat × List Vec2 × List Bool × Nat)
  | [] => some ([], [], [], 0)
  | p :: rest =>
    match nearest p with
    | none => none
    | some index =>
      match searchLoop nearest dense mt dt rest with
      | none => none
      | some (idxs, nears, masks, mc) =>
        let closest := dense.getD index (0, 0)
        let d := vnorm (vsub p closest)
        some (index :: idxs,
          (if d < dt then closest else p) :: nears,
          (if d < dt then true else false) :: masks,
          (if d < mt then 1 else 0) + mc)

/-- Scan indices traced back to reference index r, in query order
(trace_back[r] in the C++). -/
def traceOf (idxs : List Nat) (r : Nat) : List Nat :=
  (idxs.enum.filter (fun pr => pr.2 == r)).map Prod.fst

/-- ICP multiplicity rejection (pgslam.cc lines 241-248): every reference
index attracting more than three scan points has all of them masked out
and their near points reset to the scan points. -/
def multiReject (refLen : Nat) (idxs : List Nat) (scan : List Vec2)
    (nm : List Vec2 × List Bool) : List Vec2 × List Bool :=
  (List.range refLen).foldl
    (fun nm2 r =>
      let tr := traceOf idxs r
      if tr.length > 3 then
        tr.foldl (fun nm3 i => (setl nm3.1 i (scan.getD i (0, 0)), setl nm3.2 i false)) nm2
      else nm2)
    nm

/-- Inner loop of the farthest-10% selection (pgslam.cc lines 257-270):
shift-left insertion of distance d (of scan point i) into the sliding
max_distance / max_index windows, starting at position j.  The fuel
argument bounds the iteration count; it is instantiated with the window
size, which the loop (j rising to the size) never exhausts. -/
noncomputable def insertFarAux :
    Nat → List ℝ → List Nat → ℝ → Nat → Nat → List ℝ × List Nat
  | 0, md, mi, _, _, _ => (md, mi)
  | fuel + 1, md, mi, d, i, j =>
    if j < md.length then
      if d > md.getD j 0 then
        if j = md.length - 1 then
          (setl (setl md (j - 1) (md.getD j 0)) j d,
           setl (setl mi (j - 1) (mi.getD j 0)) j i)
        else
          insertFarAux fuel (setl md (j - 1) (md.getD j 0))
            (setl mi (j - 1) (mi.getD j 0)) d i (j + 1)
      else (setl md (j - 1) d, setl mi (j - 1) i)
    else (md, mi)

/-- One execution of the C++ inner for loop, from j = 1. -/
noncomputable def insertFar (md : List ℝ) (mi : List Nat) (d : ℝ) (i : Nat) :
    List ℝ × List Nat :=
  insertFarAux md.length md mi d i 1

/-- Outer loop of the farthest-10% selection (pgslam.cc lines 255-271):
feed every residual distance through the insertion, tracking the scan
index i. -/
noncomputable def farPass :
    List ℝ → List ℝ → List Nat → Nat → List ℝ × List Nat
  | [], md, mi, _ => (md, mi)
  | d :: rest, md, mi, i =>
    farPass rest (insertFar md mi d i).1 (insertFar md mi d i).2 (i + 1)

/-- ICP tail rejection (pgslam.cc lines 250-273): build the
scan.size()/10 sliding windows (value-initialised to 0), run the
selection pass over the residual distances, then disable
mask[max_index[i]] for every window position i from 1 on. -/
noncomputable def tailReject (dists : List ℝ) (mask : List Bool) : List Bool :=
  ((farPass dists (List.replicate (dists.length / 10) 0)
      (List.replicate (dists.length / 10) 0) 0).2.drop 1).foldl
    (fun mk idx => setl mk idx false) mask

/-- DBL_EPSILON. -/
noncomputable def dblEpsilon : ℝ := 1 / 2 ^ 52

/-- DBL_MAX. -/
noncomputable def dblMax : ℝ := (2 ^ 53 - 1) * 2 ^ 971

/-- Sum of the masked scan points (center accumulation,
pgslam.cc lines 276-282). -/
noncomputable def maskedSum (scan : List Vec2) (mask : List Bool) : Vec2 :=
  (List.zip scan mask).foldl (fun acc pm => if pm.2 then vadd acc pm.1 else acc) (0, 0)

/-- Number of masked scan points (count in the same C++ loop). -/
def maskedCount (scan : List Vec2) (mask : List Bool) : Nat :=
  ((List.zip scan mask).filter (fun pm => pm.2)).length

/-- Translational and rotational accumulation of one ICP iteration
(pgslam.cc lines 292-308): per masked correspondence, add the square-root
damped correspondence vector, and, unless |scan - center| < 2 DBL_EPSILON,
the cross-product rotation contribution. -/
noncomputable def moveRotAcc (scan near : List Vec2) (mask : List Bool)
    (center : Vec2) : Vec2 × ℝ :=
  (List.zip (List.zip scan near) mask).foldl
    (fun acc x =>
      if x.2 then
        let delta := vsub x.1.2 x.1.1
        let len := vnorm delta
        let delta2 := if len > 0 then
            vsmul (if len < 0.05 then len else Real.sqrt (len * 20) / 20)
              (vsmul (1 / len) delta)
          else delta
        let p := vsub x.1.1 center
        let q := vsub x.1.2 center
        if vnorm p < dblEpsilon * 2 then (vadd acc.1 delta2, acc.2)
        else (vadd acc.1 delta2,
          acc.2 + (p.1 * q.2 - p.2 * q.1) / vnorm p / Real.sqrt (vnorm p))
      else acc)
    ((0, 0), 0)

/-- The 20-fold ICP iteration (pgslam.cc lines 203-319), counting down.
Early returns: identity pose with ratio 0 on a tree no-match; the initial
reference pose with ratio 0 when no masked correspondence survives. -/
noncomputable def icpLoop (nearest : Vec2 → Option Nat) (dense scanOrigin : List Vec2)
    (mt dt : ℝ) (refPose : Pose2D) :
    Nat → Pose2D → Option ℝ → Pose2D × Option ℝ
  | 0, pose, r => (pose, r)
  | Nat.succ k, pose, r =>
    let scan := LaserScan.transform scanOrigin pose
    match searchLoop nearest dense mt dt scan with
    | none => (Pose2D.ident, wr r 0)
    | some (idxs, near0, mask0, matchCount) =>
      let r1 := wr r ((matchCount : ℝ) / (scan.length : ℝ))
      let nm := multiReject dense.length idxs scan (near0, mask0)
      let mask2 := tailReject (List.zipWith (fun a b => vnorm (vsub a b)) scan nm.1) nm.2
      let count := maskedCount scan mask2
      if count = 0 then (refPose, wr r1 0)
      else
        let center := vsmul (1 / (count : ℝ)) (maskedSum scan mask2)
        let mr := moveRotAcc scan nm.1 mask2 center
        let move := vsmul 2 (vsmul (1 / (count : ℝ)) mr.1)
        let poseDelta := Pose2D.make move.1 move.2 (mr.2 / (count : ℝ))
        icpLoop nearest dense scanOrigin mt dt refPose k
          (pose.add ((pose.inverse.add poseDelta).add pose)) r1

/-- LaserScan::ICP generic in the nearest-neighbour index (the kd-tree is
an external collaborator, modelled from the spec): compute the initial
guess other.pose - self.pose, return it untouched when either scan has
fewer than two sensor points, otherwise densify the reference, build the
index over it and run 20 iterations. -/
noncomputable def LaserScan.ICPgen (tree : List Vec2 → Vec2 → Option Nat)
    (self other : LaserScan) (r : Option ℝ) : Pose2D × Option ℝ :=
  if self.pointsSelf.length < 2 ∨ other.pointsSelf.length < 2 then
    (other.get_pose.sub self.pose, r)
  else
    icpLoop (tree (densify self.pointsSelf)) (densify self.pointsSelf)
      other.pointsSelf self.matchThreshold self.distThreshold
      (other.get_pose.sub self.pose) 20 (other.get_pose.sub self.pose) r

/-- LaserScan::ICP with the spec-modelled kd-tree. -/
noncomputable def LaserScan.ICP (self other : LaserScan) (r : Option ℝ) :
    Pose2D × Option ℝ :=
  LaserScan.ICPgen nearestIndexSpec self other r

/-- State-transformer reading of LaserScan::ICP: the method works on local
copies (scan_ref, scan, near, mask, the windows) and assigns no field of
this or of the const scan_ argument, so its effect on both objects is the
identity; the observable outputs are the returned pose and the ratio cell. -/
noncomputable def LaserScan.ICPfull (self other : LaserScan) (r : Option ℝ) :
    LaserScan × LaserScan × (Pose2D × Option ℝ) :=
  (self, other, LaserScan.ICP self other r)

/-- Observable callback invocations of the Slam front-end. -/
inductive Ev where
  | poseUpdate (p : Pose2D)
  | mapUpdate

/-- Whether an event is a pose-update callback invocation. -/
def isPoseEv : Ev → Bool
  | Ev.poseUpdate _ => true
  | Ev.mapUpdate => false

/-- Slam front-end state: current pose, keyscan list, the two coupled
thresholds, and whether each observer callback is registered.  The
pose-graph back-end (built only under USE_ISAM) is not part of this
model: spec §4.5, when the back-end is compiled out all graph operations
are no-ops and keyscans are simply appended. -/
structure Slam where
  pose : Pose2D
  scans : List LaserScan
  keyscanThreshold : ℝ
  factorThreshold : ℝ
  hasPoseCallback : Bool
  hasMapCallback : Bool

/-- Slam(): thresholds 0.4 and 0.9, default pose, no keyscans, and no
callbacks registered (std::function default constructed). -/
def Slam.init : Slam := ⟨Pose2D.ident, [], 0.4, 0.9, false, false⟩

/-- Slam::RegisterPoseUpdateCallback: store a pose-update callback. -/
def Slam.RegisterPoseUpdateCallback (s : Slam) : Slam :=
  { s with hasPoseCallback := true }

/-- Slam::RegisterMapUpdateCallback: store a map-update callback. -/
def Slam.RegisterMapUpdateCallback (s : Slam) : Slam :=
  { s with hasMapCallback := true }

/-- Slam::set_keyscan_threshold: assign it, then raise factor_threshold
to twice the new value if it fell below that. -/
noncomputable def Slam.set_keyscan_threshold (s : Slam) (k : ℝ) : Slam :=
  if k * 2 > s.factorThreshold then
    { s with keyscanThreshold := k, factorThreshold := k * 2 }
  else { s with keyscanThreshold := k }

/-- Slam::set_factor_threshold: assign it, then lower keyscan_threshold
to half the new value if it exceeded that. -/
noncomputable def Slam.set_factor_threshold (s : Slam) (f : ℝ) : Slam :=
  if s.keyscanThreshold * 2 > f then
    { s with factorThreshold := f, keyscanThreshold := f / 2 }
  else { s with factorThreshold := f }

/-- Slam::EncoderToPose2D (pgslam.cc lines 489-501): circular-arc model;
theta = (right-left)/tread, arc = (right+left)/2, radius = arc/theta,
secant = 2 sin(theta/2) radius, overridden to arc when theta == 0 (which
also masks the C++ division by zero there), displacement
(secant cos(theta/2), secant sin(theta/2), theta). -/
noncomputable def Slam.EncoderToPose2D (left right tread : ℝ) : Pose2D :=
  Pose2D.make
    ((if (right - left) / tread = 0 then (right + left) / 2
      else 2 * Real.sin ((right - left) / tread / 2)
        * (((right + left) / 2) / ((right - left) / tread)))
      * Real.cos ((right - left) / tread / 2))
    ((if (right - left) / tread = 0 then (right + left) / 2
      else 2 * Real.sin ((right - left) / tread / 2)
        * (((right + left) / 2) / ((right - left) / tread)))
      * Real.sin ((right - left) / tread / 2))
    ((right - left) / tread)

/-- Slam::UpdatePoseWithPose: pose <- pose + delta. -/
noncomputable def Slam.UpdatePoseWithPose (s : Slam) (p : Pose2D) : Slam :=
  { s with pose := s.pose.add p }

/-- Slam::UpdatePoseWithEncoder: integrate the encoder displacement and
fire the pose-update callback when registered. -/
noncomputable def Slam.UpdatePoseWithEncoder (s : Slam) (left right tread : ℝ) :
    Slam × List Ev :=
  ({ s with pose := s.pose.add (Slam.EncoderToPose2D left right tread) },
   if s.hasPoseCallback then
     [Ev.poseUpdate (s.pose.add (Slam.EncoderToPose2D left right tread))]
   else [])

/-- The composite keyscan distance of the closest-scan search
(pgslam.cc lines 534-542): Euclidean position distance combined with the
absolute angle difference pushed through the same two normalisation
loops and scaled by keyscan_threshold / (3 M_PI_4). -/
noncomputable def compDist (keyT : ℝ) (a b : Pose2D) : ℝ :=
  Real.sqrt (vnorm (vsub a.pos b.pos) * vnorm (vsub a.pos b.pos)
    + (normalizeAngle |a.theta - b.theta| * (keyT / (Real.pi / 4 * 3)))
      * (normalizeAngle |a.theta - b.theta| * (keyT / (Real.pi / 4 * 3))))

/-- Closest-keyscan search (pgslam.cc lines 530-547): running minimum of
the composite distance, seeded with DBL_MAX and the first keyscan. -/
noncomputable def closestFold (t : ℝ) (target : Pose2D) (scans : List LaserScan)
    (init : ℝ × LaserScan) : ℝ × LaserScan :=
  scans.foldl
    (fun best sc => if compDist t sc.pose target < best.1 then
      (compDist t sc.pose target, sc) else best)
    init

/-- Slam::UpdatePoseWithLaserScan (pgslam.cc lines 513-599), without the
USE_ISAM back-end: stamp the scan with the current pose; a first scan is
appended as keyscan 0, fires the map-update callback and returns early;
otherwise the closest keyscan decides between relocalisation (ICP against
it refines the pose; the C++ passes the address of an uninitialised local
double, modelled as some 0 since ICP never reads the cell) and admitting
the scan as a new keyscan (map-update callback); finally the pose-update
callback fires with the current pose. -/
noncomputable def Slam.UpdatePoseWithLaserScan (s : Slam) (scanIn : LaserScan) :
    Slam × List Ev :=
  let stamped := scanIn.set_pose s.pose
  if s.scans.isEmpty then
    ({ s with scans := s.scans ++ [stamped] },
     if s.hasMapCallback then [Ev.mapUpdate] else [])
  else
    let best := closestFold s.keyscanThreshold stamped.pose s.scans
      (dblMax, s.scans.headD stamped)
    let res :=
      if best.1 < s.keyscanThreshold then
        ({ s with
            pose := best.2.get_pose.add (LaserScan.ICP best.2 stamped (some 0)).1 },
         ([] : List Ev))
      else
        ({ s with scans := s.scans ++ [stamped] },
         if s.hasMapCallback then [Ev.mapUpdate] else [])
    (res.1, res.2 ++ (if s.hasPoseCallback then [Ev.poseUpdate res.1.pose] else []))

/-- Slam::get_pose. -/
def Slam.get_pose (s : Slam) : Pose2D := s.pose

/-- Slam::get_scans. -/
def Slam.get_scans (s : Slam) : List LaserScan := s.scans

/- Concrete fixtures used by witnesses and counterexamples. -/

/-- A scan with no sensor points (bounding box fields 0 as in fromEchos). -/
def scanA : LaserScan := ⟨[], Pose2D.ident, false, [], 0, 0, 0, 0, 0.1, 1⟩

/-- A scan with one sensor point and pose (2, 0, 0). -/
def scanB : LaserScan := ⟨[((1 : ℝ), 0)], Pose2D.mk 2 0 0, false, [], 0, 0, 0, 0, 0.1, 1⟩

/-- The pose (1, 0, 0), built through the constructor. -/
noncomputable def poseA : Pose2D := Pose2D.make 1 0 0

/-- The pose (0, 0, pi/2), built through the constructor. -/
noncomputable def poseB : Pose2D := Pose2D.make 0 0 (Real.pi / 2)

/-- Indices at which the tail-rejection step changed the mask. -/
noncomputable def changedIdx (dists : List ℝ) (mask : List Bool) : List Nat :=
  (List.range mask.length).filter
    (fun i => (tailReject dists mask).getD i false != mask.getD i false)

/-- A reference scan with two sensor points. -/
def selfW : LaserScan :=
  ⟨[((0 : ℝ), 0), ((1 : ℝ), 0)], Pose2D.ident, false, [], 0, 0, 0, 0, 0.1, 1⟩

/-- A moving scan with two sensor points. -/
def otherW : LaserScan :=
  ⟨[((0 : ℝ), 0), ((2 : ℝ), 0)], Pose2D.ident, false, [], 0, 0, 0, 0, 0.1, 1⟩

/-- A Slam with no keyscans and both callbacks registered. -/
def slamEmptyCb : Slam := ⟨Pose2D.ident, [], 0.4, 0.9, true, true⟩

/-- A Slam holding one keyscan at the identity pose, current pose identity. -/
def slamOne : Slam :=
  ⟨Pose2D.ident, [scanA.set_pose Pose2D.ident], 0.4, 0.9, false, false⟩

/-- A Slam holding one keyscan at the identity pose, current pose (1,0,0). -/
def slamFar : Slam :=
  ⟨Pose2D.mk 1 0 0, [scanA.set_pose Pose2D.ident], 0.4, 0.9, false, false⟩

/-- Like slamOne but with both callbacks registered. -/
def slamOneCb : Slam :=
  ⟨Pose2D.ident, [scanA.set_pose Pose2D.ident], 0.4, 0.9, true, true⟩

theorem normLow_eq (θ : ℝ) :
    normLow θ = if θ < -Real.pi then normLow (θ + 2 * Real.pi) else θ := by
  rw [normLow]
  by_cases h : θ < -Real.pi <;> simp [h]

theorem normHigh_eq (θ : ℝ) :
    normHigh θ = if θ > Real.pi then normHigh (θ - 2 * Real.pi) else θ := by
  rw [normHigh]
  by_cases h : θ > Real.pi <;> simp [h]

theorem normLow_of_ge (θ : ℝ) (h : ¬ θ < -Real.pi) : normLow θ = θ := by
  rw [normLow_eq, if_neg h]

theorem normHigh_of_le (θ : ℝ) (h : ¬ θ > Real.pi) : normHigh θ = θ := by
  rw [normHigh_eq, if_neg h]

theorem normLow_ge (θ : ℝ) : -Real.pi ≤ normLow θ := by
  by_cases h : θ < -Real.pi
  · rw [normLow_eq, if_pos h]
    exact normLow_ge (θ + 2 * Real.pi)
  · rw [normLow_eq, if_neg h]; linarith
termination_by (⌈(-Real.pi - θ) / (2 * Real.pi)⌉).toNat
decreasing_by
  have hπ : (0 : ℝ) < 2 * Real.pi := by positivity
  have h1 : (-Real.pi - (θ + 2 * Real.pi)) / (2 * Real.pi)
      = (-Real.pi - θ) / (2 * Real.pi) - 1 := by field_simp; ring
  have hpos : 0 < ⌈(-Real.pi - θ) / (2 * Real.pi)⌉ :=
    Int.ceil_pos.mpr (div_pos (by linarith) hπ)
  rw [h1, Int.ceil_sub_one]
  omega

theorem normLow_le_pi (θ : ℝ) (hθ : θ ≤ Real.pi) : normLow θ ≤ Real.pi := by
  by_cases h : θ < -Real.pi
  · rw [normLow_eq, if_pos h]
    apply normLow_le_pi
    have hπ : (0 : ℝ) < Real.pi := Real.pi_pos
    linarith
  · rw [normLow_eq, if_neg h]; exact hθ
termination_by (⌈(-Real.pi - θ) / (2 * Real.pi)⌉).toNat
decreasing_by
  have hπ : (0 : ℝ) < 2 * Real.pi := by positivity
  have h1 : (-Real.pi - (θ + 2 * Real.pi)) / (2 * Real.pi)
      = (-Real.pi - θ) / (2 * Real.pi) - 1 := by field_simp; ring
  have hpos : 0 < ⌈(-Real.pi - θ) / (2 * Real.pi)⌉ :=
    Int.ceil_pos.mpr (div_pos (by linarith) hπ)
  rw [h1, Int.ceil_sub_one]
  omega

theorem normHigh_le (θ : ℝ) : normHigh θ ≤ Real.pi := by
  by_cases h : θ > Real.pi
  · rw [normHigh_eq, if_pos h]
    exact normHigh_le (θ - 2 * Real.pi)
  · rw [normHigh_eq, if_neg h]; linarith
termination_by (⌈(θ - Real.pi) / (2 * Real.pi)⌉).toNat
decreasing_by
  have hπ : (0 : ℝ) < 2 * Real.pi := by positivity
  have h1 : (θ - 2 * Real.pi - Real.pi) / (2 * Real.pi)
      = (θ - Real.pi) / (2 * Real.pi) - 1 := by field_simp; ring
  have hpos : 0 < ⌈(θ - Real.pi) / (2 * Real.pi)⌉ :=
    Int.ceil_pos.mpr (div_pos (by linarith) hπ)
  rw [h1, Int.ceil_sub_one]
  omega

theorem normHigh_ge (θ : ℝ) (hθ : -Real.pi ≤ θ) : -Real.pi ≤ normHigh θ := by
  by_cases h : θ > Real.pi
  · rw [normHigh_eq, if_pos h]
    apply normHigh_ge
    have hπ : (0 : ℝ) < Real.pi := Real.pi_pos
    linarith
  · rw [normHigh_eq, if_neg h]; exact hθ
termination_by (⌈(θ - Real.pi) / (2 * Real.pi)⌉).toNat
decreasing_by
  have hπ : (0 : ℝ) < 2 * Real.pi := by positivity
  have h1 : (θ - 2 * Real.pi - Real.pi) / (2 * Real.pi)
      = (θ - Real.pi) / (2 * Real.pi) - 1 := by field_simp; ring
  have hpos : 0 < ⌈(θ - Real.pi) / (2 * Real.pi)⌉ :=
    Int.ceil_pos.mpr (div_pos (by linarith) hπ)
  rw [h1, Int.ceil_sub_one]
  omega

theorem normLow_mod (θ : ℝ) : ∃ k : ℤ, normLow θ = θ + 2 * Real.pi * k := by
  by_cases h : θ < -Real.pi
  · rw [normLow_eq, if_pos h]
    obtain ⟨k, hk⟩ := normLow_mod (θ + 2 * Real.pi)
    exact ⟨k + 1, by push_cast; linarith⟩
  · exact ⟨0, by rw [normLow_eq, if_neg h]; push_cast; ring⟩
termination_by (⌈(-Real.pi - θ) / (2 * Real.pi)⌉).toNat
decreasing_by
  have hπ : (0 : ℝ) < 2 * Real.pi := by positivity
  have h1 : (-Real.pi - (θ + 2 * Real.pi)) / (2 * Real.pi)
      = (-Real.pi - θ) / (2 * Real.pi) - 1 := by field_simp; ring
  have hpos : 0 < ⌈(-Real.pi - θ) / (2 * Real.pi)⌉ :=
    Int.ceil_pos.mpr (div_pos (by linarith) hπ)
  rw [h1, Int.ceil_sub_one]
  omega

theorem normHigh_mod (θ : ℝ) : ∃ k : ℤ, normHigh θ = θ + 2 * Real.pi * k := by
  by_cases h : θ > Real.pi
  · rw [normHigh_eq, if_pos h]
    obtain ⟨k, hk⟩ := normHigh_mod (θ - 2 * Real.pi)
    exact ⟨k - 1, by push_cast; linarith⟩
  · exact ⟨0, by rw [normHigh_eq, if_neg h]; push_cast; ring⟩
termination_by (⌈(θ - Real.pi) / (2 * Real.pi)⌉).toNat
decreasing_by
  have hπ : (0 : ℝ) < 2 * Real.pi := by positivity
  have h1 : (θ - 2 * Real.pi - Real.pi) / (2 * Real.pi)
      = (θ - Real.pi) / (2 * Real.pi) - 1 := by field_simp; ring
  have hpos : 0 < ⌈(θ - Real.pi) / (2 * Real.pi)⌉ :=
    Int.ceil_pos.mpr (div_pos (by linarith) hπ)
  rw [h1, Int.ceil_sub_one]
  omega

theorem normalizeAngle_ge (θ : ℝ) : -Real.pi ≤ normalizeAngle θ :=
  normHigh_ge _ (normLow_ge θ)

theorem normalizeAngle_le (θ : ℝ) : normalizeAngle θ ≤ Real.pi :=
  normHigh_le _

theorem normalizeAngle_of_mem (θ : ℝ) (h1 : -Real.pi ≤ θ) (h2 : θ ≤ Real.pi) :
    normalizeAngle θ = θ := by
  unfold normalizeAngle
  rw [normLow_of_ge θ (not_lt.mpr h1), normHigh_of_le θ (not_lt.mpr h2)]

theorem normalizeAngle_zero : normalizeAngle 0 = 0 :=
  normalizeAngle_of_mem 0 (by linarith [Real.pi_pos]) (by linarith [Real.pi_pos])

theorem normalizeAngle_mod (θ : ℝ) :
    ∃ k : ℤ, normalizeAngle θ = θ + 2 * Real.pi * k := by
  obtain ⟨k1, hk1⟩ := normLow_mod θ
  obtain ⟨k2, hk2⟩ := normHigh_mod (normLow θ)
  exact ⟨k1 + k2, by unfold normalizeAngle; rw [hk2, hk1]; push_cast; ring⟩

theorem cos_normalizeAngle (θ : ℝ) :
    Real.cos (normalizeAngle θ) = Real.cos θ := by
  obtain ⟨k, hk⟩ := normalizeAngle_mod θ
  rw [hk, show θ + 2 * Real.pi * k = θ + k * (2 * Real.pi) by ring,
    Real.cos_add_int_mul_two_pi]

theorem sin_normalizeAngle (θ : ℝ) :
    Real.sin (normalizeAngle θ) = Real.sin θ := by
  obtain ⟨k, hk⟩ := normalizeAngle_mod θ
  rw [hk, show θ + 2 * Real.pi * k = θ + k * (2 * Real.pi) by ring,
    Real.sin_add_int_mul_two_pi]

theorem setl_length {α : Type} (l : List α) (n : Nat) (v : α) :
    (setl l n v).length = l.length := by
  induction l generalizing n with
  | nil => rfl
  | cons a t ih =>
    cases n with
    | zero => rfl
    | succ m => simp [setl, ih]

theorem setl_getD_ne {α : Type} (l : List α) (n i : Nat) (v d : α)
    (h : i ≠ n) : (setl l n v).getD i d = l.getD i d := by
  induction l generalizing n i with
  | nil => rfl
  | cons a t ih =>
    cases n with
    | zero =>
      cases i with
      | zero => exact absurd rfl h
      | succ j => rfl
    | succ m =>
      cases i with
      | zero => rfl
      | succ j =>
        simp only [setl, List.getD_cons_succ]
        exact ih m j (fun hc => h (by omega))

theorem poseB_theta : poseB.theta = Real.pi / 2 := by
  show normalizeAngle (Real.pi / 2) = Real.pi / 2
  exact normalizeAngle_of_mem _ (by linarith [Real.pi_pos]) (by linarith [Real.pi_pos])

/-- C2 (counterexample): for a = (1,0,0) and b = (0,0,pi/2), the claimed
composition order (a - b) + b yields x = 0 while a.x = 1, so
(a - b) + b does not recover a (the discrepancy is 1, far beyond any
floating-point tolerance). -/
theorem C2_counterexample :
    ((poseA.sub poseB).add poseB).x = 0 ∧ poseA.x = 1 := by
  refine ⟨?_, rfl⟩
  simp only [poseA, poseB, Pose2D.sub, Pose2D.add, Pose2D.inverse, Pose2D.make, rot2]
  have hN : normalizeAngle (Real.pi / 2) = Real.pi / 2 :=
    normalizeAngle_of_mem _ (by linarith [Real.pi_pos]) (by linarith [Real.pi_pos])
  rw [hN]
  norm_num [cos_normalizeAngle, sin_normalizeAngle, Real.cos_pi_div_two,
    Real.sin_pi_div_two, Real.cos_neg, Real.sin_neg]

/-- C2 (amended): composing the difference on the right of b recovers a:
b + (a - b) equals a exactly in x and y, and in theta up to a multiple of
2 pi (the stored angles are renormalised); the claim's order (a - b) + b
is a conjugation and does not recover a. -/
theorem C2_sub_add_cancel (a b : Pose2D) :
    (b.add (a.sub b)).x = a.x ∧ (b.add (a.sub b)).y = a.y ∧
    ∃ k : ℤ, (b.add (a.sub b)).theta = a.theta + 2 * Real.pi * k := by
  have hcs := Real.sin_sq_add_cos_sq b.theta
  refine ⟨?_, ?_, ?_⟩
  · simp only [Pose2D.sub, Pose2D.add, Pose2D.inverse, Pose2D.make, rot2]
    simp only [cos_normalizeAngle, sin_normalizeAngle, Real.cos_neg, Real.sin_neg]
    linear_combination (a.x - b.x) * hcs
  · simp only [Pose2D.sub, Pose2D.add, Pose2D.inverse, Pose2D.make, rot2]
    simp only [cos_normalizeAngle, sin_normalizeAngle, Real.cos_neg, Real.sin_neg]
    linear_combination (a.y - b.y) * hcs
  · obtain ⟨k1, hk1⟩ := normalizeAngle_mod (-b.theta)
    obtain ⟨k2, hk2⟩ := normalizeAngle_mod (normalizeAngle (-b.theta) + a.theta)
    obtain ⟨k3, hk3⟩ :=
      normalizeAngle_mod (b.theta + normalizeAngle (normalizeAngle (-b.theta) + a.theta))
    refine ⟨k1 + k2 + k3, ?_⟩
    show normalizeAngle (b.theta + normalizeAngle (normalizeAngle (-b.theta) + a.theta))
      = a.theta + 2 * Real.pi * (k1 + k2 + k3 : ℤ)
    rw [hk3, hk2, hk1]
    push_cast
    ring

/-- C3 (counterexample): the constructor maps an input angle of exactly
-pi to the stored angle -pi, which is not in the half-open interval
(-pi, pi]. -/
theorem C3_counterexample :
    (Pose2D.make 0 0 (-Real.pi)).theta = -Real.pi ∧
    ¬ (-Real.pi < (Pose2D.make 0 0 (-Real.pi)).theta) := by
  have h : (Pose2D.make 0 0 (-Real.pi)).theta = -Real.pi := by
    show normalizeAngle (-Real.pi) = -Real.pi
    exact normalizeAngle_of_mem _ le_rfl (by linarith [Real.pi_pos])
  exact ⟨h, by rw [h]; exact lt_irrefl _⟩

/-- C3 (amended): the angle stored by the constructor, by set_theta and by
every Pose2D operation lies in the closed interval [-pi, pi] (an input of
exactly -pi is stored unchanged, so the interval is closed, not
half-open). -/
theorem C3_theta_closed_interval (x y θ : ℝ) (p q : Pose2D) :
    (-Real.pi ≤ (Pose2D.make x y θ).theta ∧ (Pose2D.make x y θ).theta ≤ Real.pi) ∧
    (-Real.pi ≤ (p.set_theta θ).theta ∧ (p.set_theta θ).theta ≤ Real.pi) ∧
    (-Real.pi ≤ (p.add q).theta ∧ (p.add q).theta ≤ Real.pi) ∧
    (-Real.pi ≤ p.inverse.theta ∧ p.inverse.theta ≤ Real.pi) ∧
    (-Real.pi ≤ (p.sub q).theta ∧ (p.sub q).theta ≤ Real.pi) := by
  refine ⟨⟨?_, ?_⟩, ⟨?_, ?_⟩, ⟨?_, ?_⟩, ⟨?_, ?_⟩, ⟨?_, ?_⟩⟩ <;>
    first
      | exact normalizeAngle_ge _
      | exact normalizeAngle_le _

/-- C5: when either scan has fewer than two sensor-frame points, ICP
returns the initial relative-pose guess other.pose - self.pose and the
ratio cell is left exactly as it was. -/
theorem C5_degenerate_scan (self other : LaserScan) (r : Option ℝ)
    (h : self.pointsSelf.length < 2 ∨ other.pointsSelf.length < 2) :
    LaserScan.ICP self other r = (other.get_pose.sub self.pose, r) := by
  unfold LaserScan.ICP LaserScan.ICPgen
  rw [if_pos h]

theorem C5_witness :
    LaserScan.ICP scanA scanB (some 5) = (scanB.get_pose.sub scanA.pose, some 5) :=
  C5_degenerate_scan scanA scanB (some 5) (Or.inl (by simp [scanA]))

/-- C7: set_keyscan_threshold(k) restores factor_threshold >= 2k by
raising it when needed; set_factor_threshold(f) restores
keyscan_threshold <= f/2 by lowering it when needed. -/
theorem C7_threshold_coupling (s : Slam) (k f : ℝ) :
    2 * k ≤ (s.set_keyscan_threshold k).factorThreshold ∧
    (s.set_factor_threshold f).keyscanThreshold ≤ f / 2 := by
  constructor
  · unfold Slam.set_keyscan_threshold
    by_cases h : k * 2 > s.factorThreshold
    · rw [if_pos h]; simp only []; linarith
    · rw [if_neg h]; simp only []; linarith
  · unfold Slam.set_factor_threshold
    by_cases h : s.keyscanThreshold * 2 > f
    · rw [if_pos h]
    · rw [if_neg h]; simp only []; linarith

/-- C9: equal wheel arcs give straight-line motion: EncoderToPose2D(l, l,
tread) is the pose (l, 0, 0) for every l and every nonzero tread, through
the theta = 0 fallback that sets the secant to the arc. -/
theorem C9_encoder_straight (l tread : ℝ) (h : tread ≠ 0) :
    (Slam.EncoderToPose2D l l tread).x = l ∧
    (Slam.EncoderToPose2D l l tread).y = 0 ∧
    (Slam.EncoderToPose2D l l tread).theta = 0 := by
  have h0 : (l - l) / tread = 0 := by simp
  unfold Slam.EncoderToPose2D Pose2D.make
  rw [h0]
  norm_num [normalizeAngle_zero]

theorem C9_witness :
    (1 / 2 : ℝ) ≠ 0 ∧
    ((Slam.EncoderToPose2D 3 3 (1 / 2)).x = 3 ∧
     (Slam.EncoderToPose2D 3 3 (1 / 2)).y = 0 ∧
     (Slam.EncoderToPose2D 3 3 (1 / 2)).theta = 0) :=
  ⟨by norm_num, C9_encoder_straight 3 (1 / 2) (by norm_num)⟩

/-- C10: ICP leaves both scan objects exactly as they were: the method
reads fields of this and of the const argument but assigns none, working
only on local copies, so its state effect on both scans is the identity. -/
theorem C10_icp_frame (a b : LaserScan) (r : Option ℝ) :
    (LaserScan.ICPfull a b r).1 = a ∧ (LaserScan.ICPfull a b r).2.1 = b :=
  ⟨rfl, rfl⟩

theorem insertFarAux_len (fuel : Nat) (md : List ℝ) (mi : List Nat) (d : ℝ)
    (i j : Nat) :
    ((insertFarAux fuel md mi d i j).1).length = md.length ∧
    ((insertFarAux fuel md mi d i j).2).length = mi.length := by
  induction fuel generalizing md mi j with
  | zero => exact ⟨rfl, rfl⟩
  | succ n ih =>
    simp only [insertFarAux]
    by_cases h1 : j < md.length
    · rw [if_pos h1]
      by_cases h2 : d > md.getD j 0
      · rw [if_pos h2]
        by_cases h3 : j = md.length - 1
        · rw [if_pos h3]; simp [setl_length]
        · rw [if_neg h3]
          have h := ih (setl md (j - 1) (md.getD j 0)) (setl mi (j - 1) (mi.getD j 0))
            (j + 1)
          rw [h.1, h.2, setl_length, setl_length]
          exact ⟨rfl, rfl⟩
      · rw [if_neg h2]; simp [setl_length]
    · rw [if_neg h1]; exact ⟨rfl, rfl⟩

theorem farPass_len (dists : List ℝ) (md : List ℝ) (mi : List Nat) (i : Nat) :
    ((farPass dists md mi i).1).length = md.length ∧
    ((farPass dists md mi i).2).length = mi.length := by
  induction dists generalizing md mi i with
  | nil => exact ⟨rfl, rfl⟩
  | cons d rest ih =>
    simp only [farPass]
    have h1 := insertFarAux_len md.length md mi d i 1
    have h2 := ih (insertFar md mi d i).1 (insertFar md mi d i).2 (i + 1)
    unfold insertFar at h1
    exact ⟨h2.1.trans h1.1, h2.2.trans h1.2⟩

theorem foldl_setl_false_changed (l : List Nat) (m : List Bool) (i : Nat) (d : Bool)
    (h : (l.foldl (fun mk idx => setl mk idx false) m).getD i d ≠ m.getD i d) :
    i ∈ l := by
  induction l generalizing m with
  | nil => exact absurd rfl h
  | cons a t ih =>
    simp only [List.foldl_cons] at h
    by_cases hc : (t.foldl (fun mk idx => setl mk idx false) (setl m a false)).getD i d
        = (setl m a false).getD i d
    · by_cases hia : i = a
      · exact hia ▸ List.mem_cons_self a t
      · exact absurd (hc.trans (setl_getD_ne m a i false d hia)) h
    · exact List.mem_cons_of_mem a (ih (setl m a false) hc)

/-- C4 (amended): the tail-rejection step changes the mask only at
indices recorded in positions 1 and above of max_index (position 0 is
skipped by the disable loop), hence it disables at most
floor(|scan|/10) - 1 correspondences (not ceil(|scan|/10) - 1). -/
theorem C4_tail_rejection (dists : List ℝ) (mask : List Bool) :
    changedIdx dists mask ⊆
      (farPass dists (List.replicate (dists.length / 10) 0)
        (List.replicate (dists.length / 10) 0) 0).2.drop 1 ∧
    (changedIdx dists mask).length ≤ dists.length / 10 - 1 := by
  have hsub : changedIdx dists mask ⊆
      (farPass dists (List.replicate (dists.length / 10) 0)
        (List.replicate (dists.length / 10) 0) 0).2.drop 1 := by
    intro i hi
    have hmem := List.mem_filter.mp hi
    have hne : (tailReject dists mask).getD i false ≠ mask.getD i false := by
      simpa using hmem.2
    unfold tailReject at hne
    exact foldl_setl_false_changed _ mask i false hne
  refine ⟨hsub, ?_⟩
  have hnd : (changedIdx dists mask).Nodup :=
    List.Nodup.filter _ (List.nodup_range _)
  have hlen := (hnd.subperm hsub).length_le
  rw [List.length_drop,
    (farPass_len dists (List.replicate (dists.length / 10) 0)
      (List.replicate (dists.length / 10) 0) 0).2,
    List.length_replicate] at hlen
  exact hlen

/-- C4 (counterexample): on a moving scan of 11 points (all residual
distances 0, full mask) the trim window has size floor(11/10) = 1, so the
disable loop runs over no position at all and the mask is unchanged,
while the claim demands exactly ceil(11/10) - 1 = 1 removal. -/
theorem C4_counterexample :
    tailReject (List.replicate 11 (0 : ℝ)) (List.replicate 11 true)
      = List.replicate 11 true ∧ (⌈(11 : ℚ) / 10⌉ - 1 : ℤ) = 1 := by
  constructor
  · rfl
  · have h : ⌈(11 : ℚ) / 10⌉ = 2 := by
      rw [Int.ceil_eq_iff] <;> norm_num
    rw [h]
    norm_num

/-- C6: whenever the nearest-index query inside ICP reports no match
(the kd-tree, an external collaborator modelled from the spec, answers
"none", as it does exactly on an empty tree), ICP returns the identity
pose Pose2D() and writes 0 through a non-null ratio pointer — observably
distinct from the NoCorrespondences return, which is the initial guess
with ratio 0. -/
theorem C6_empty_tree (tree : List Vec2 → Vec2 → Option Nat)
    (self other : LaserScan) (r : Option ℝ)
    (h1 : 2 ≤ self.pointsSelf.length) (h2 : 2 ≤ other.pointsSelf.length)
    (hnone : ∀ q, tree (densify self.pointsSelf) q = none) :
    LaserScan.ICPgen tree self other r = (Pose2D.ident, wr r 0) := by
  unfold LaserScan.ICPgen
  rw [if_neg (by omega)]
  obtain ⟨p, rest, hcons⟩ : ∃ p rest, other.pointsSelf = p :: rest := by
    cases hop : other.pointsSelf with
    | nil => rw [hop] at h2; simp at h2
    | cons p rest => exact ⟨p, rest, rfl⟩
  rw [hcons, show (20 : Nat) = Nat.succ 19 from rfl]
  simp only [icpLoop, LaserScan.transform, List.map_cons, searchLoop, hnone]

theorem C6_witness :
    LaserScan.ICPgen (fun _ _ => none) selfW otherW (some 5)
      = (Pose2D.ident, some 0) :=
  C6_empty_tree (fun _ _ => none) selfW otherW (some 5)
    (by simp [selfW]) (by simp [otherW]) (fun q => rfl)

theorem closestFold_cons (t : ℝ) (tg : Pose2D) (a : LaserScan)
    (l : List LaserScan) (init : ℝ × LaserScan) :
    closestFold t tg (a :: l) init
      = closestFold t tg l
        (if compDist t a.pose tg < init.1 then (compDist t a.pose tg, a) else init) := by
  simp only [closestFold, List.foldl_cons]

theorem closestFold_le (t : ℝ) (tg : Pose2D) (scans : List LaserScan)
    (init : ℝ × LaserScan) :
    (closestFold t tg scans init).1 ≤ init.1 ∧
    ∀ sc ∈ scans, (closestFold t tg scans init).1 ≤ compDist t sc.pose tg := by
  induction scans generalizing init with
  | nil =>
    refine ⟨le_rfl, ?_⟩
    intro sc hsc
    exact absurd hsc (List.not_mem_nil sc)
  | cons a l ih =>
    rw [closestFold_cons]
    by_cases hlt : compDist t a.pose tg < init.1
    · rw [if_pos hlt]
      have h := ih (compDist t a.pose tg, a)
      refine ⟨h.1.trans hlt.le, ?_⟩
      intro sc hsc
      rcases List.mem_cons.mp hsc with hq | hq
      · subst hq; exact h.1
      · exact h.2 sc hq
    · rw [if_neg hlt]
      have h := ih init
      refine ⟨h.1, ?_⟩
      intro sc hsc
      rcases List.mem_cons.mp hsc with hq | hq
      · subst hq; exact h.1.trans (not_lt.mp hlt)
      · exact h.2 sc hq

theorem closestFold_gt (t c : ℝ) (tg : Pose2D) (scans : List LaserScan)
    (init : ℝ × LaserScan) (hinit : c < init.1)
    (h : ∀ sc ∈ scans, c < compDist t sc.pose tg) :
    c < (closestFold t tg scans init).1 := by
  induction scans generalizing init with
  | nil => exact hinit
  | cons a l ih =>
    rw [closestFold_cons]
    refine ih _ ?_ ?_
    · by_cases hlt : compDist t a.pose tg < init.1
      · rw [if_pos hlt]; exact h a (List.mem_cons_self a l)
      · rw [if_neg hlt]; exact hinit
    · intro sc hsc; exact h sc (List.mem_cons_of_mem a hsc)

/-- C8: keyscan admission.  From an empty Slam one scan becomes the single
keyscan; with keyscans present, if every keyscan is closer than
keyscan_threshold under the composite translation-plus-weighted-angle
distance the scan list is unchanged (relocalisation), and if every
keyscan is farther than keyscan_threshold (with the threshold below
DBL_MAX, the seed of the running minimum) exactly the stamped scan is
appended. -/
theorem C8_keyscan_admission (s : Slam) (scanIn : LaserScan) :
    (s.scans = [] →
      (s.UpdatePoseWithLaserScan scanIn).1.scans = [scanIn.set_pose s.pose]) ∧
    (s.scans ≠ [] →
      (∀ sc ∈ s.scans,
        compDist s.keyscanThreshold sc.pose s.pose < s.keyscanThreshold) →
      (s.UpdatePoseWithLaserScan scanIn).1.scans = s.scans) ∧
    (s.scans ≠ [] → s.keyscanThreshold < dblMax →
      (∀ sc ∈ s.scans,
        s.keyscanThreshold < compDist s.keyscanThreshold sc.pose s.pose) →
      (s.UpdatePoseWithLaserScan scanIn).1.scans
        = s.scans ++ [scanIn.set_pose s.pose]) := by
  refine ⟨?_, ?_, ?_⟩
  · intro h
    simp only [Slam.UpdatePoseWithLaserScan]
    rw [if_pos (by rw [h]; rfl)]
    simp [h]
  · intro hne hlt
    simp only [Slam.UpdatePoseWithLaserScan]
    rw [if_neg (by simp [hne])]
    obtain ⟨a, l, hcons⟩ : ∃ a l, s.scans = a :: l := by
      cases hsc : s.scans with
      | nil => exact absurd hsc hne
      | cons a l => exact ⟨a, l, rfl⟩
    have hmem : a ∈ s.scans := by rw [hcons]; exact List.mem_cons_self a l
    have hb : (closestFold s.keyscanThreshold (scanIn.set_pose s.pose).pose s.scans
        (dblMax, s.scans.headD (scanIn.set_pose s.pose))).1 < s.keyscanThreshold :=
      lt_of_le_of_lt ((closestFold_le _ _ _ _).2 a hmem) (hlt a hmem)
    rw [if_pos hb]
  · intro hne hdm hgt
    simp only [Slam.UpdatePoseWithLaserScan]
    rw [if_neg (by simp [hne])]
    have hb : s.keyscanThreshold < (closestFold s.keyscanThreshold
        (scanIn.set_pose s.pose).pose s.scans
        (dblMax, s.scans.headD (scanIn.set_pose s.pose))).1 :=
      closestFold_gt _ _ _ _ _ hdm (fun sc hsc => hgt sc hsc)
    rw [if_neg (not_lt.mpr hb.le)]

theorem C8_witness :
    ((slamEmptyCb.UpdatePoseWithLaserScan scanA).1.scans
        = [scanA.set_pose slamEmptyCb.pose]) ∧
    ((slamOne.UpdatePoseWithLaserScan scanA).1.scans = slamOne.scans) ∧
    ((slamFar.UpdatePoseWithLaserScan scanA).1.scans
        = slamFar.scans ++ [scanA.set_pose slamFar.pose]) := by
  refine ⟨(C8_keyscan_admission slamEmptyCb scanA).1 rfl,
    (C8_keyscan_admission slamOne scanA).2.1 (by simp [slamOne]) ?_,
    (C8_keyscan_admission slamFar scanA).2.2 (by simp [slamFar])
      (by norm_num [slamFar, dblMax]) ?_⟩
  · intro sc hsc
    simp only [slamOne, List.mem_singleton] at hsc
    subst hsc
    norm_num [slamOne, scanA, LaserScan.set_pose, compDist, Pose2D.pos,
      Pose2D.ident, vsub, vnorm, normalizeAngle_zero, Real.sqrt_zero]
  · intro sc hsc
    simp only [slamFar, List.mem_singleton] at hsc
    subst hsc
    norm_num [slamFar, scanA, LaserScan.set_pose, compDist, Pose2D.pos,
      Pose2D.ident, vsub, vnorm, normalizeAngle_zero, Real.sqrt_zero,
      Real.sqrt_one]

/-- C1 (counterexample): with a registered pose-update callback, feeding
the very first scan (admitted as keyscan 0) fires only the map-update
callback: the first-scan branch of UpdatePoseWithLaserScan returns before
reaching the pose-update callback at the end. -/
theorem C1_counterexample :
    slamEmptyCb.hasPoseCallback = true ∧
    (slamEmptyCb.UpdatePoseWithLaserScan scanA).2 = [Ev.mapUpdate] :=
  ⟨rfl, rfl⟩

/-- C1 (amended): with a registered pose-update callback,
UpdatePoseWithLaserScan fires the pose-update callback (exactly once,
with the final pose) for every scan except the very first: the
first-scan branch fires only the map-update callback and returns early,
so no pose-update callback is invoked for the first scan. -/
theorem C1_pose_callback (s : Slam) (scanIn : LaserScan)
    (h : s.hasPoseCallback = true) :
    (s.scans.isEmpty = true →
      (s.UpdatePoseWithLaserScan scanIn).2.filter isPoseEv = []) ∧
    (s.scans.isEmpty = false →
      (s.UpdatePoseWithLaserScan scanIn).2.filter isPoseEv
        = [Ev.poseUpdate (s.UpdatePoseWithLaserScan scanIn).1.pose]) := by
  constructor
  · intro he
    simp only [Slam.UpdatePoseWithLaserScan]
    rw [if_pos he]
    cases hm : s.hasMapCallback <;> simp [hm, isPoseEv]
  · intro he
    have hcond : ¬ (s.scans.isEmpty = true) := by rw [he]; simp
    simp only [Slam.UpdatePoseWithLaserScan]
    rw [if_neg hcond]
    split
    · simp [h, isPoseEv]
    · cases hm : s.hasMapCallback <;> simp [h, hm, isPoseEv]

theorem C1_witness :
    ((slamEmptyCb.UpdatePoseWithLaserScan scanA).2.filter isPoseEv = []) ∧
    ((slamOneCb.UpdatePoseWithLaserScan scanA).2.filter isPoseEv
      = [Ev.poseUpdate (slamOneCb.UpdatePoseWithLaserScan scanA).1.pose]) :=
  ⟨(C1_pose_callback slamEmptyCb scanA rfl).1 rfl,
   (C1_pose_callback slamOneCb scanA rfl).2 rfl⟩

end Pgslam
